import Mathlib

/-!
# Taal — formal model of the tempo-mapping and performance-matching core

A shallow embedding, in Lean 4, of the core algorithms of the Taal drum
practice application:

* `crates/domain/src/tempo.rs`   — `TempoEvent`, `TempoMap` (validation,
  `duration_between_beats`, `bpm_at`);
* `crates/domain/src/events.rs`  — `DrumPiece`, `DrumEvent`, `NotatedEvent`;
* `crates/tutor/src/scoring.rs`  — `ScoringEngine::score_with_spb`;
* `crates/tutor/src/session.rs`  — `SessionState`, `register_hit`;
* `crates/tutor/src/analytics.rs`— `SessionAnalytics`;
* `apps/desktop/src/main.rs`     — the `TutorPane` live hit matcher
  (`handle_live_hit`), the missed-event scan, the loop-boundary logic and
  the transport-start handler.

Rust `f64`/`f32` values are modelled as exact rationals (`ℚ`); all the source
computations involved are field arithmetic, `min`/`max`, absolute value and
comparisons, which ℚ models faithfully (no rounding behaviour is relied upon
by any modelled branch).  `u8` counters are modelled as `Nat` with explicit
saturation at 255 where the source uses saturating arithmetic.  Fallible
constructors return `Except DomainError`.
-/

/-- From `crates/domain/src/error.rs`: `DomainError` (only the `Validation`
variant is reachable from the modelled constructors). -/
inductive DomainError where
  | validation (msg : String)
  | serialization (msg : String)
deriving DecidableEq, Repr

/-- From `crates/domain/src/events.rs`: the 13 drum pieces. -/
inductive DrumPiece where
  | Crash | Ride | HiHatClosed | HiHatOpen | HiHatFoot
  | HighTom | LowTom | FloorTom | Snare | CrossStick
  | Bass | Splash | China
deriving DecidableEq, Repr

/-- From `crates/domain/src/events.rs`: articulations. -/
inductive DrumArticulation where
  | Normal | Flam | Drag | Rimshot | Ghost
deriving DecidableEq, Repr

/-- From `crates/domain/src/events.rs`: dynamics bands. -/
inductive DrumDynamic where
  | Pianissimo | Piano | MezzoPiano | MezzoForte | Forte | Fortissimo
deriving DecidableEq, Repr

/-- `DrumDynamic::from_velocity` (velocity is a `u8`). -/
def DrumDynamic.from_velocity (velocity : Nat) : DrumDynamic :=
  if velocity ≤ 20 then .Pianissimo
  else if velocity ≤ 50 then .Piano
  else if velocity ≤ 80 then .MezzoPiano
  else if velocity ≤ 100 then .MezzoForte
  else if velocity ≤ 115 then .Forte
  else .Fortissimo

/-- `TimingOffset` (milliseconds from the quantized grid). -/
structure TimingOffset where
  millis : ℚ
deriving DecidableEq, Repr

def TimingOffset.zero : TimingOffset := ⟨0⟩

/-- From `crates/domain/src/events.rs`: a single drum strike. -/
structure DrumEvent where
  beat : ℚ
  piece : DrumPiece
  articulation : DrumArticulation
  dynamic : DrumDynamic
  velocity : Nat
  timing_offset : TimingOffset
deriving DecidableEq, Repr

/-- `DrumEvent::new`: the dynamic is always recomputed from the velocity. -/
def DrumEvent.new (beat : ℚ) (piece : DrumPiece) (velocity : Nat)
    (articulation : DrumArticulation) : DrumEvent :=
  { beat := beat
    piece := piece
    articulation := articulation
    dynamic := DrumDynamic.from_velocity velocity
    velocity := velocity
    timing_offset := TimingOffset.zero }

/-- From `crates/domain/src/events.rs`: a notated chart entry.  The source
`duration` is a `time::Duration`; modelled here in milliseconds. -/
structure NotatedEvent where
  event : DrumEvent
  durationMs : ℚ
  tuplet : Option (Nat × Nat)
deriving DecidableEq, Repr

/-- `NotatedEvent::new` (tuplet defaults to `None`). -/
def NotatedEvent.new (event : DrumEvent) (durationMs : ℚ) : NotatedEvent :=
  ⟨event, durationMs, none⟩

/-! ## Tempo model (`crates/domain/src/tempo.rs`) -/

/-- A tempo/time-signature change point. -/
structure TempoEvent where
  /-- Seconds from the start of the piece. -/
  time : ℚ
  /-- Beats per minute. -/
  bpm : ℚ
  /-- Time signature as (numerator, denominator). -/
  signature : Nat × Nat
deriving DecidableEq, Repr

/-- Number of set bits, as computed by Rust's `count_ones`. -/
def countOnes (n : Nat) : Nat :=
  if h : n = 0 then 0
  else n % 2 + countOnes (n / 2)
decreasing_by exact Nat.div_lt_self (Nat.pos_of_ne_zero h) (by decide)

/-- Rust `u8::is_power_of_two`, i.e. `count_ones() == 1`. -/
def isPowerOfTwo (n : Nat) : Bool :=
  countOnes n == 1

/-- `TempoEvent::new` with its three validation checks, in source order. -/
def TempoEvent.new (time : ℚ) (bpm : ℚ) (signature : Nat × Nat) :
    Except DomainError TempoEvent :=
  if time < 0 then
    .error (.validation "tempo events cannot have negative time")
  else if ¬(10 ≤ bpm ∧ bpm ≤ 400) then
    .error (.validation "tempo bpm must be between 10 and 400")
  else if signature.1 = 0 ∨ ¬(isPowerOfTwo signature.2) then
    .error (.validation "time signature denominator must be power of two")
  else
    .ok { time := time, bpm := bpm, signature := signature }

/-- `TempoEvent::seconds_per_beat`. -/
def TempoEvent.seconds_per_beat (e : TempoEvent) : ℚ :=
  60 / e.bpm

/-- Sorted insertion by `time`, modelling `sort_by(partial_cmp on time)`
(on ℚ the comparison is total, so the source's `unwrap` cannot panic). -/
def insertByTime (e : TempoEvent) : List TempoEvent → List TempoEvent
  | [] => [e]
  | x :: xs => if x.time ≤ e.time then x :: insertByTime e xs else e :: x :: xs

/-- Sorting of the event list used by `TempoMap::new`. -/
def sortByTime : List TempoEvent → List TempoEvent
  | [] => []
  | e :: rest => insertByTime e (sortByTime rest)

/-- From `crates/domain/src/tempo.rs`: a validated tempo map.  The source
maintains (via `TempoMap::new` / `TempoMap::constant`) the invariant that
`events` is non-empty; the model carries the invariant as a proof field so
that the `self.events[0]` accesses of the source are total. -/
structure TempoMap where
  events : List TempoEvent
  events_nonempty : events ≠ []

/-- `TempoMap::new`: sorts by time, then requires a non-empty list whose
first event is at time exactly 0. -/
def TempoMap.new (events : List TempoEvent) : Except DomainError TempoMap :=
  match sortByTime events with
  | [] => .error (.validation "tempo map requires at least one event")
  | first :: rest =>
    if first.time ≠ 0 then
      .error (.validation "tempo map must start at time 0")
    else
      .ok ⟨first :: rest, by simp⟩

/-- `TempoMap::bpm_at`: value of the latest event with `time ≤ t`
("last event wins"); the source loop carries the first event as the initial
current value and breaks at the first later event. -/
def bpmAtLoop (t : ℚ) (current : TempoEvent) : List TempoEvent → TempoEvent
  | [] => current
  | e :: rest => if e.time ≤ t then bpmAtLoop t e rest else current

def TempoMap.bpm_at (m : TempoMap) (time : ℚ) : ℚ :=
  (bpmAtLoop time (m.events.head m.events_nonempty) m.events).bpm

/-- The body of the `while beat_cursor < end_beat` loop of
`TempoMap::duration_between_beats`.  The source initialises
`current = self.events[0]` and — as written — never advances `current`
inside the loop, so every 1-beat step uses the first event's
`seconds_per_beat`; the model reproduces that faithfully.  `fuel` bounds
the iteration count (each iteration advances the cursor by exactly 1, so
`⌈end − start⌉` iterations always suffice). -/
def durationLoop (spb endBeat : ℚ) : ℚ → ℚ → Nat → ℚ
  | _, seconds, 0 => seconds
  | cursor, seconds, fuel + 1 =>
    if cursor < endBeat then
      durationLoop spb endBeat (cursor + 1)
        (seconds + min (endBeat - cursor) 1 * spb) fuel
    else seconds

/-- `TempoMap::duration_between_beats` (result in seconds; the source wraps
the same value in `Duration::seconds_f64`). -/
def TempoMap.duration_between_beats (m : TempoMap) (startBeat endBeat : ℚ) : ℚ :=
  let current := m.events.head m.events_nonempty
  durationLoop current.seconds_per_beat endBeat startBeat 0
    ((endBeat - startBeat).ceil.toNat + 1)

/-! ## Lesson, scoring, analytics -/

/-- From `crates/domain/src/lesson.rs`: cumulative practice statistics
(`last_practiced` is an `Option<OffsetDateTime>`, irrelevant to the modelled
algorithms and omitted). -/
structure PracticeStatistics where
  average_accuracy : ℚ
  highest_streak : Nat
deriving DecidableEq, Repr

/-- From `crates/domain/src/lesson.rs`: the chart aggregate.  The source's
string metadata (`id`, `title`, `description`), `difficulty` and `goals`
play no part in any modelled algorithm and are omitted; the source field
`notation` is renamed `noted` (`notation` is reserved in Lean). -/
structure LessonDescriptor where
  default_tempo : TempoMap
  noted : List NotatedEvent
  stats : PracticeStatistics

/-- From `crates/tutor/src/scoring.rs`: the report record. -/
structure PerformanceReport where
  accuracy : ℚ
  early_hits : Nat
  late_hits : Nat
deriving DecidableEq, Repr

/-- `PerformanceReport::empty`. -/
def PerformanceReport.empty : PerformanceReport :=
  { accuracy := 0, early_hits := 0, late_hits := 0 }

/-- The `for (expected, actual) in notation.iter().zip(hits.iter())` loop of
`ScoringEngine::score_with_spb`, threading the `(matched, early, late)`
counters. -/
def scoreLoop (spb : ℚ) :
    List (NotatedEvent × DrumEvent) → Nat × Nat × Nat → Nat × Nat × Nat
  | [], acc => acc
  | (expected, actual) :: rest, (matched, early, late) =>
    let delta_beats := actual.beat - expected.event.beat
    let delta_ms := |delta_beats * spb * 1000|
    if delta_ms < 50 then
      if delta_beats < 0 then
        scoreLoop spb rest (matched + 1, early + 1, late)
      else if delta_beats > 0 then
        scoreLoop spb rest (matched + 1, early, late + 1)
      else
        scoreLoop spb rest (matched + 1, early, late)
    else
      scoreLoop spb rest (matched, early, late)

/-- `ScoringEngine::score_with_spb`: positional (zip) pairwise comparison
with a fixed 50 ms threshold; the empty chart short-circuits to the empty
report before any division. -/
def score_with_spb (lesson : LessonDescriptor) (hits : List DrumEvent)
    (seconds_per_beat : ℚ) : PerformanceReport :=
  if lesson.noted.isEmpty then PerformanceReport.empty
  else
    let acc := scoreLoop seconds_per_beat (lesson.noted.zip hits) (0, 0, 0)
    { accuracy := (acc.1 : ℚ) / (lesson.noted.length : ℚ)
      early_hits := acc.2.1
      late_hits := acc.2.2 }

/-- From `crates/tutor/src/analytics.rs`: wraps a report. -/
structure SessionAnalytics where
  report : PerformanceReport
deriving DecidableEq, Repr

/-- `SessionAnalytics::update_statistics`. -/
def SessionAnalytics.update_statistics (a : SessionAnalytics)
    (stats : PracticeStatistics) : PracticeStatistics :=
  { average_accuracy := (stats.average_accuracy + a.report.accuracy) / 2
    highest_streak :=
      if a.report.accuracy > 9/10 then stats.highest_streak + 1
      else stats.highest_streak - 1 }

/-! ## Tutor session (`crates/tutor/src/session.rs`) -/

/-- `PracticeMode` of the tutor session. -/
inductive PracticeMode where
  | Learn | Practice | Perform
deriving DecidableEq, Repr

/-- `SessionState`. -/
structure SessionState where
  lesson : LessonDescriptor
  mode : PracticeMode
  current_index : Nat
  completed : Bool

/-- `SessionState::expect_next`. -/
def SessionState.expect_next (s : SessionState) : Option DrumEvent :=
  (s.lesson.noted.get? s.current_index).map (·.event)

/-- `SessionState::register_hit`. -/
def SessionState.register_hit (s : SessionState) (event : DrumEvent) :
    SessionState :=
  let s :=
    match s.expect_next with
    | some expected =>
      if expected.piece = event.piece then
        { s with current_index := s.current_index + 1 }
      else s
    | none => s
  if s.lesson.noted.length ≤ s.current_index then
    { s with completed := true }
  else s

/-! ## Desktop tutor pane (`apps/desktop/src/main.rs`) -/

/-- `HitLabel` of the desktop app. -/
inductive HitLabel where
  | OnTime | Late | Early | Missed
deriving DecidableEq, Repr

/-- `PracticeUIMode` of the desktop app. -/
inductive PracticeUIMode where
  | FreePlay | Test
deriving DecidableEq, Repr

/-- The fields of `TutorPane` (desktop app) that take part in the modelled
transport / matching / scoring logic.  Omitted source fields are the MIDI
connection handles, the `last_tick : Option<Instant>` wall-clock anchor (the
tick delta it produces enters the model as the explicit `dt` parameters),
the `ScoringEngine` unit struct, UI-only fields (`freeze_playhead`,
`drag_handle`, `ripples`, `hit_window_ms`, `tempo_scale_default`,
`bpm_initialized_from_settings`, `next_click_beat` is kept because the
transport writes it). -/
structure TutorPane where
  session : Option SessionState
  hits : List DrumEvent
  analytics : Option SessionAnalytics
  latency_ms : ℚ
  playing : Bool
  bpm : ℚ
  playhead : ℚ
  next_click_beat : ℚ
  pre_roll_beats : Nat
  pre_roll_active : Bool
  pre_roll_remaining : ℚ
  elapsed_secs : ℚ
  statuses : List (Option HitLabel)
  practice_match_window_pct : ℚ
  practice_on_time_pct : ℚ
  practice_match_cap_ms : ℚ
  practice_on_time_cap_ms : ℚ
  countdown_each_loop : Bool
  loop_total : Nat
  loops_done : Nat
  end_beat : ℚ
  mode : PracticeUIMode
  loop_use_region : Bool
  loop_a : ℚ
  loop_b : ℚ
  review_active : Bool

/-- `self.statuses.get(i).copied().flatten()`. -/
def statusAt (statuses : List (Option HitLabel)) (i : Nat) : Option HitLabel :=
  (statuses.get? i).join

/-- The acceptance test of the scan of `handle_live_hit`:
`best.map(|(_, bd)| d < bd).unwrap_or(true)` — true when there is no best
yet, and otherwise only when the new distance is strictly smaller. -/
def betterThan (d : ℚ) : Option (Nat × ℚ) → Prop
  | none => True
  | some q => d < q.2

instance (d : ℚ) (best : Option (Nat × ℚ)) : Decidable (betterThan d best) :=
  match best with
  | none => isTrue trivial
  | some q => inferInstanceAs (Decidable (d < q.2))

/-- The candidate-scan loop of `TutorPane::handle_live_hit`: iterates the
chart entries with their indices, keeping the best `(index, distance)` seen
so far; an entry replaces the current best only when strictly closer.  The
match window is recomputed inside the loop exactly as in the source. -/
def findBest (statuses : List (Option HitLabel)) (pct capMs bpm : ℚ)
    (piece : DrumPiece) (hitBeat : ℚ) :
    Nat → List NotatedEvent → Option (Nat × ℚ) → Option (Nat × ℚ)
  | _, [], best => best
  | i, ev :: rest, best =>
    let best' :=
      if ev.event.piece ≠ piece then best
      else if (statusAt statuses i).isSome then best
      else
        let d := |ev.event.beat - hitBeat|
        let pct_beats := pct / 100
        let cap_beats := capMs / 1000 * bpm / 60
        let beat_window := min pct_beats cap_beats
        if d < beat_window ∧ betterThan d best then some (i, d) else best
    findBest statuses pct capMs bpm piece hitBeat (i + 1) rest best'

/-- `TutorPane::handle_live_hit`.  The ripple push and the tone playback are
UI/audio side effects with no bearing on the modelled state and are omitted;
everything else is reproduced: latency compensation, the candidate scan, the
on-time/late/early classification, the status write, `register_hit` on the
session and the push onto `hits`.  When no candidate qualifies the source
performs no state change at all. -/
def handleLiveHit (p : TutorPane) (piece : DrumPiece) (vel : Nat) : TutorPane :=
  let latency_beats := p.latency_ms / 1000 * p.bpm / 60
  let hit_beat := max (p.playhead - latency_beats) 0
  match p.session with
  | none => p
  | some session =>
    match findBest p.statuses p.practice_match_window_pct p.practice_match_cap_ms
        p.bpm piece hit_beat 0 session.lesson.noted none with
    | none => p
    | some (idx, _) =>
      match session.lesson.noted.get? idx with
      | none => p
      | some nev =>
        let expected := nev.event.beat
        let delta := hit_beat - expected
        let ontime_beats := min (p.practice_on_time_pct / 100)
          (p.practice_on_time_cap_ms / 1000 * p.bpm / 60)
        let label :=
          if |delta| < ontime_beats then HitLabel.OnTime
          else if delta > 0 then HitLabel.Late
          else HitLabel.Early
        let ev := DrumEvent.new hit_beat piece vel DrumArticulation.Normal
        { p with
          statuses := p.statuses.set idx (some label)
          session := some (session.register_hit ev)
          hits := p.hits ++ [ev] }

/-- The `for (i, ev) in notation.iter().enumerate()` missed-detection loop
(main.rs, inside the Playing tick): each still-`None` entry whose
`beat + window < head` is set to `Missed`. -/
def missedLoop (window head : ℚ) :
    Nat → List NotatedEvent → List (Option HitLabel) → List (Option HitLabel)
  | _, [], statuses => statuses
  | i, ev :: rest, statuses =>
    let statuses' :=
      if statusAt statuses i = none ∧ ev.event.beat + window < head then
        statuses.set i (some HitLabel.Missed)
      else statuses
    missedLoop window head (i + 1) rest statuses'

/-- The missed-event detection step of the Playing tick (main.rs): computes
the match window from the active BPM (lesson tempo at the elapsed time when
`use_lesson_tempo` is set, the pane's fixed BPM otherwise) and runs the scan
— but only when the mode is not `FreePlay`. -/
def missedDetectionStep (p : TutorPane) (useLessonTempo : Bool) : TutorPane :=
  match p.session with
  | none => p
  | some session =>
    let bpm_used :=
      if useLessonTempo then session.lesson.default_tempo.bpm_at p.elapsed_secs
      else p.bpm
    let pct_beats := p.practice_match_window_pct / 100
    let cap_beats := p.practice_match_cap_ms / 1000 * bpm_used / 60
    let beat_window := min pct_beats cap_beats
    let head := p.playhead
    if p.mode ≠ PracticeUIMode.FreePlay then
      { p with statuses := missedLoop beat_window head 0 session.lesson.noted p.statuses }
    else p

/-- The loop-boundary logic of the Playing tick (main.rs).  On reaching the
boundary the pass counter saturating-increments; while passes remain (or in
FreePlay) the playhead and elapsed time rewind to the region start (0 when
no region) and the whole status table is cleared, optionally re-arming the
pre-roll; on the final pass playback stops, the batch scorer runs over the
captured hits at `spb = 60 / bpm` and the review is exposed.  The source's
`update_statistics` call writes into a local clone of the lesson stats that
is then dropped, so it has no effect on the state and only the stored
report survives. -/
def loopBoundaryStep (p : TutorPane) (settingsPreRollBeats : Nat) : TutorPane :=
  match p.session with
  | none => p
  | some session =>
    let end_boundary := if p.loop_use_region then max p.loop_b p.loop_a else p.end_beat
    if p.playhead ≥ end_boundary then
      let loops_done := min (p.loops_done + 1) 255
      if loops_done < p.loop_total ∨ p.mode = PracticeUIMode.FreePlay then
        let p1 :=
          { p with
            loops_done := loops_done
            playhead := if p.loop_use_region then min p.loop_a p.loop_b else 0
            elapsed_secs := 0
            next_click_beat := 0
            statuses := p.statuses.map (fun _ => none) }
        if p.countdown_each_loop then
          { p1 with
            pre_roll_active := true
            pre_roll_beats := settingsPreRollBeats
            pre_roll_remaining := (settingsPreRollBeats : ℚ) }
        else p1
      else
        let bpm_used := p.bpm
        let spb := 60 / bpm_used
        let report := score_with_spb session.lesson p.hits spb
        { p with
          loops_done := loops_done
          playing := false
          analytics := some ⟨report⟩
          review_active := true }
    else p

/-- The Play-button branch of the transport (main.rs) taken when playback
starts (`self.playing` toggles to `true`): arms the pre-roll from the
settings, zeroes the click tracker and the pass counter, derives the pass
target from the mode, rewinds to the region start only when the A/B region
is enabled, and leaves any review.  `u8::MAX` is the FreePlay pass target. -/
def startTransport (p : TutorPane) (settingsPreRollBeats : Nat)
    (defaultLoopCount : Nat) : TutorPane :=
  let p1 :=
    { p with
      playing := true
      pre_roll_active := true
      pre_roll_beats := settingsPreRollBeats
      pre_roll_remaining := (settingsPreRollBeats : ℚ)
      next_click_beat := 0
      loops_done := 0
      loop_total :=
        match p.mode with
        | .FreePlay => 255
        | .Test => defaultLoopCount }
  let p2 :=
    if p1.loop_use_region then
      { p1 with playhead := min p1.loop_a p1.loop_b, elapsed_secs := 0 }
    else p1
  { p2 with review_active := false }

/-- The pre-roll branch of the tick (main.rs): the countdown decreases by
the tick's wall-clock delta in seconds (independent of BPM) and pre-roll
ends when it reaches 0.  The click playback is an audio side effect and is
omitted. -/
def preRollTick (p : TutorPane) (dt : ℚ) : TutorPane :=
  let remaining := p.pre_roll_remaining - dt
  if remaining ≤ 0 then
    { p with pre_roll_remaining := remaining, pre_roll_active := false
             next_click_beat := 0 }
  else
    { p with pre_roll_remaining := remaining }

/-! ## Analysis of the candidate scan -/

/-- The qualification condition of the scan in `handle_live_hit`: same piece,
status still `None`, and beat distance to the (latency-compensated) hit
strictly inside the match window. -/
def isCandidate (statuses : List (Option HitLabel)) (piece : DrumPiece)
    (hitBeat window : ℚ) (i : Nat) (ev : NotatedEvent) : Prop :=
  ev.event.piece = piece ∧ statusAt statuses i = none ∧
    |ev.event.beat - hitBeat| < window

instance (statuses : List (Option HitLabel)) (piece : DrumPiece)
    (hitBeat window : ℚ) (i : Nat) (ev : NotatedEvent) :
    Decidable (isCandidate statuses piece hitBeat window i ev) := by
  unfold isCandidate; infer_instance

/-- The `(index, |delta|)` pairs of the qualifying candidates, in scan
order (proof device used to reason about `findBest`). -/
def candPairs (statuses : List (Option HitLabel)) (piece : DrumPiece)
    (hitBeat window : ℚ) : Nat → List NotatedEvent → List (Nat × ℚ)
  | _, [] => []
  | i, ev :: rest =>
    if isCandidate statuses piece hitBeat window i ev then
      (i, |ev.event.beat - hitBeat|) ::
        candPairs statuses piece hitBeat window (i + 1) rest
    else candPairs statuses piece hitBeat window (i + 1) rest

/-- One strict-improvement step of the best-candidate accumulator. -/
def argminStep (best : Option (Nat × ℚ)) (pr : Nat × ℚ) : Option (Nat × ℚ) :=
  if betterThan pr.2 best then some pr else best

/-- Folding `argminStep` over the candidate pairs. -/
def argminFold (best : Option (Nat × ℚ)) (ps : List (Nat × ℚ)) :
    Option (Nat × ℚ) :=
  ps.foldl argminStep best

/-- The batch matching condition for one zipped pair. -/
def hitPairMatched (spb : ℚ) (pr : NotatedEvent × DrumEvent) : Bool :=
  decide (|(pr.2.beat - pr.1.event.beat) * spb * 1000| < 50)

/-- A matched pair counted as early (negative beat delta). -/
def hitPairEarly (spb : ℚ) (pr : NotatedEvent × DrumEvent) : Bool :=
  hitPairMatched spb pr && decide (pr.2.beat - pr.1.event.beat < 0)

/-- A matched pair counted as late (positive beat delta). -/
def hitPairLate (spb : ℚ) (pr : NotatedEvent × DrumEvent) : Bool :=
  hitPairMatched spb pr && decide (pr.2.beat - pr.1.event.beat > 0)

/-! ## Concrete instances used by witnesses and counterexamples -/

/-- A tempo map whose tempo halves (120 → 60 BPM) at 0.5 s, i.e. at beat 1. -/
def tempoChangeMap : TempoMap :=
  ⟨[⟨0, 120, (4, 4)⟩, ⟨1/2, 60, (4, 4)⟩], by simp⟩

/-- A constant 120 BPM map (what `TempoMap::constant(120.0)` builds). -/
def constMap120 : TempoMap :=
  ⟨[⟨0, 120, (4, 4)⟩], by simp⟩

/-- A notated event at a given beat for a given piece (velocity 96, normal
articulation, 500 ms duration). -/
def mkNote (b : ℚ) (piece : DrumPiece) : NotatedEvent :=
  NotatedEvent.new (DrumEvent.new b piece 96 DrumArticulation.Normal) 500

/-- Two snare notes at beats 0 and 1, constant 120 BPM. -/
def demoLesson : LessonDescriptor :=
  ⟨constMap120, [mkNote 0 DrumPiece.Snare, mkNote 1 DrumPiece.Snare], ⟨0, 0⟩⟩

/-- A lesson with an empty chart. -/
def emptyLesson : LessonDescriptor := ⟨constMap120, [], ⟨0, 0⟩⟩

/-- A lesson whose only note (snare, beat 10) is far from any early strike. -/
def farLesson : LessonDescriptor :=
  ⟨constMap120, [mkNote 10 DrumPiece.Snare], ⟨0, 0⟩⟩

/-- Two same-piece notes at beats 1 and 6/5, equidistant from a strike at
beat 11/10. -/
def tieLesson : LessonDescriptor :=
  ⟨constMap120, [mkNote 1 DrumPiece.Snare, mkNote (6/5) DrumPiece.Snare], ⟨0, 0⟩⟩

/-- Two captured hits for `demoLesson`: 0.01 beats late on the first note,
0.1 beats late on the second. -/
def demoHits : List DrumEvent :=
  [DrumEvent.new (1/100) DrumPiece.Snare 90 DrumArticulation.Normal,
   DrumEvent.new (11/10) DrumPiece.Snare 90 DrumArticulation.Normal]

/-- A tutor pane mid-playback on `demoLesson` with default practice
settings (match window 12.5 % / 75 ms, on-time 7.5 % / 40 ms, 120 BPM,
no latency compensation), playhead just past beat 0. -/
def basePane : TutorPane :=
  { session := some ⟨demoLesson, PracticeMode.Learn, 0, false⟩
    hits := []
    analytics := none
    latency_ms := 0
    playing := true
    bpm := 120
    playhead := 1/100
    next_click_beat := 0
    pre_roll_beats := 4
    pre_roll_active := false
    pre_roll_remaining := 0
    elapsed_secs := 0
    statuses := [none, none]
    practice_match_window_pct := 25/2
    practice_on_time_pct := 15/2
    practice_match_cap_ms := 75
    practice_on_time_cap_ms := 40
    countdown_each_loop := false
    loop_total := 2
    loops_done := 0
    end_beat := 1
    mode := PracticeUIMode.Test
    loop_use_region := false
    loop_a := 0
    loop_b := 0
    review_active := false }

/-- `basePane` on `farLesson`: a snare strike at the playhead has no
candidate within the match window. -/
def farPane : TutorPane :=
  { basePane with
    session := some ⟨farLesson, PracticeMode.Learn, 0, false⟩
    playhead := 0
    statuses := [none] }

/-- A FreePlay pane whose only note (beat 0) is long overdue at playhead 4. -/
def freePlayOverduePane : TutorPane :=
  { basePane with
    session := some ⟨⟨constMap120, [mkNote 0 DrumPiece.Snare], ⟨0, 0⟩⟩,
      PracticeMode.Learn, 0, false⟩
    mode := PracticeUIMode.FreePlay
    playhead := 4
    statuses := [none] }

/-- Same state as `freePlayOverduePane` but in Test mode. -/
def testOverduePane : TutorPane :=
  { freePlayOverduePane with mode := PracticeUIMode.Test }

/-- A pane paused mid-chart (playhead at beat 3) with no loop region. -/
def midChartPane : TutorPane :=
  { basePane with playing := false, playhead := 3, elapsed_secs := 3/2 }

/-- Test mode, explicit loop region [2, 6], pass target 2, no pass done yet,
playhead at the region end; one entry already resolved. -/
def loopPaneFirst : TutorPane :=
  { basePane with
    playhead := 6
    elapsed_secs := 3
    loop_use_region := true
    loop_a := 2
    loop_b := 6
    statuses := [some HitLabel.OnTime, none]
    hits := demoHits }

/-- The analogous state at the end of the second pass. -/
def loopPaneSecond : TutorPane :=
  { loopPaneFirst with
    loops_done := 1
    statuses := [none, some HitLabel.Late] }

/-! ## Helper lemmas about the status table -/

theorem statusAt_set_ne (sts : List (Option HitLabel)) (i j : Nat)
    (v : Option HitLabel) (h : i ≠ j) :
    statusAt (sts.set i v) j = statusAt sts j := by
  induction sts generalizing i j with
  | nil => simp [statusAt]
  | cons a l ih =>
    cases i with
    | zero =>
      cases j with
      | zero => exact absurd rfl h
      | succ j => simp [statusAt, List.set]
    | succ i =>
      cases j with
      | zero => simp [statusAt, List.set]
      | succ j =>
        simp only [List.set, statusAt, List.get?] at *
        exact ih i j (by omega)

theorem statusAt_set_self (sts : List (Option HitLabel)) (i : Nat)
    (v : Option HitLabel) (h : i < sts.length) :
    statusAt (sts.set i v) i = v := by
  induction sts generalizing i with
  | nil => simp at h
  | cons a l ih =>
    cases i with
    | zero => simp [statusAt, List.set]
    | succ i =>
      simp only [List.set, statusAt, List.get?]
      exact ih i (by simpa using h)

theorem argminFold_cons (best : Option (Nat × ℚ)) (pr : Nat × ℚ)
    (ps : List (Nat × ℚ)) :
    argminFold best (pr :: ps) = argminFold (argminStep best pr) ps := rfl

/-- Fusion: the scan of `handle_live_hit` equals the strict argmin fold over
its qualifying candidate pairs. -/
theorem findBest_eq_argminFold (statuses : List (Option HitLabel))
    (pct capMs bpm : ℚ) (piece : DrumPiece) (hitBeat : ℚ)
    (l : List NotatedEvent) :
    ∀ (i : Nat) (best : Option (Nat × ℚ)),
    findBest statuses pct capMs bpm piece hitBeat i l best =
      argminFold best
        (candPairs statuses piece hitBeat
          (min (pct / 100) (capMs / 1000 * bpm / 60)) i l) := by
  induction l with
  | nil => intro i best; rfl
  | cons ev rest ih =>
    intro i best
    rw [candPairs]
    by_cases hc :
        isCandidate statuses piece hitBeat
          (min (pct / 100) (capMs / 1000 * bpm / 60)) i ev
    · obtain ⟨h1, h2, h3⟩ := hc
      rw [if_pos ⟨h1, h2, h3⟩, argminFold_cons]
      have hstep : findBest statuses pct capMs bpm piece hitBeat i (ev :: rest) best =
          findBest statuses pct capMs bpm piece hitBeat (i + 1) rest
            (argminStep best (i, |ev.event.beat - hitBeat|)) := by
        simp only [findBest, h1, h2, argminStep]
        simp only [if_congr (and_iff_right h3) rfl rfl]
        simp
      rw [hstep, ih]
    · rw [if_neg hc]
      have hstep : findBest statuses pct capMs bpm piece hitBeat i (ev :: rest) best =
          findBest statuses pct capMs bpm piece hitBeat (i + 1) rest best := by
        by_cases h1 : ev.event.piece = piece
        · by_cases h2 : statusAt statuses i = none
          · have h3 : ¬ |ev.event.beat - hitBeat| <
                min (pct / 100) (capMs / 1000 * bpm / 60) :=
              fun h3 => hc ⟨h1, h2, h3⟩
            simp only [findBest, h1, h2]
            simp [h3]
          · have h2' : (statusAt statuses i).isSome := by
              cases hst : statusAt statuses i
              · exact absurd hst h2
              · rfl
            simp only [findBest, h1]
            simp [h2']
        · simp only [findBest]
          simp [h1]
      rw [hstep, ih]

theorem argminFold_some_isSome (ps : List (Nat × ℚ)) :
    ∀ x : Nat × ℚ, ∃ pr, argminFold (some x) ps = some pr := by
  induction ps with
  | nil => intro x; exact ⟨x, rfl⟩
  | cons p ps ih =>
    intro x
    rw [argminFold_cons, argminStep]
    by_cases h : betterThan p.2 (some x)
    · rw [if_pos h]; exact ih p
    · rw [if_neg h]; exact ih x

theorem argminFold_mem (ps : List (Nat × ℚ)) :
    ∀ (best : Option (Nat × ℚ)) (pr : Nat × ℚ),
    argminFold best ps = some pr → best = some pr ∨ pr ∈ ps := by
  induction ps with
  | nil => intro best pr h; exact Or.inl h
  | cons p ps ih =>
    intro best pr h
    rw [argminFold_cons] at h
    rcases ih _ pr h with hstep | hmem
    · rw [argminStep] at hstep
      by_cases hacc : betterThan p.2 best
      · rw [if_pos hacc] at hstep
        exact Or.inr (by simp [← Option.some_inj.mp hstep])
      · rw [if_neg hacc] at hstep
        exact Or.inl hstep
    · exact Or.inr (List.mem_cons_of_mem _ hmem)

theorem argminFold_min (ps : List (Nat × ℚ)) :
    ∀ (best : Option (Nat × ℚ)) (pr : Nat × ℚ),
    argminFold best ps = some pr →
      (∀ q ∈ ps, pr.2 ≤ q.2) ∧ (∀ b, best = some b → pr.2 ≤ b.2) := by
  induction ps with
  | nil =>
    intro best pr h
    have hb' : best = some pr := h
    refine ⟨by simp, fun b hb => ?_⟩
    rw [hb] at hb'
    simp [Option.some_inj.mp hb']
  | cons p ps ih =>
    intro best pr h
    rw [argminFold_cons] at h
    obtain ⟨htail, hstep⟩ := ih _ pr h
    by_cases hacc : betterThan p.2 best
    · have hp : pr.2 ≤ p.2 := hstep p (by rw [argminStep, if_pos hacc])
      refine ⟨fun q hq => ?_, fun b hb => ?_⟩
      · rcases List.mem_cons.mp hq with rfl | hq
        · exact hp
        · exact htail q hq
      · have hpb : p.2 < b.2 := by rw [hb] at hacc; exact hacc
        exact le_of_lt (lt_of_le_of_lt hp hpb)
    · have hbe : argminStep best p = best := by rw [argminStep, if_neg hacc]
      have hbest : ∀ b, best = some b → pr.2 ≤ b.2 := by
        intro b hb
        exact hstep b (by rw [hbe, hb])
      refine ⟨fun q hq => ?_, hbest⟩
      rcases List.mem_cons.mp hq with rfl | hq
      · cases hbb : best with
        | none => rw [hbb] at hacc; exact absurd trivial hacc
        | some b0 =>
          rw [hbb] at hacc
          exact le_trans (hbest b0 hbb) (not_lt.mp hacc)
      · exact htail q hq

theorem argminFold_first (ps : List (Nat × ℚ)) :
    ∀ (best : Option (Nat × ℚ)) (pr : Nat × ℚ),
    argminFold best ps = some pr →
      best = some pr ∨
        ∃ ps1 ps2, ps = ps1 ++ pr :: ps2 ∧ (∀ q ∈ ps1, pr.2 < q.2) ∧
          ∀ b, best = some b → pr.2 < b.2 := by
  induction ps with
  | nil => intro best pr h; exact Or.inl h
  | cons p ps ih =>
    intro best pr h
    rw [argminFold_cons] at h
    rcases ih _ pr h with hstep | ⟨ps1, ps2, hsplit, hlt1, hltb⟩
    · rw [argminStep] at hstep
      by_cases hacc : betterThan p.2 best
      · rw [if_pos hacc] at hstep
        have hpr : p = pr := Option.some_inj.mp hstep
        subst hpr
        exact Or.inr ⟨[], ps, rfl, by simp, fun b hb => by
          rw [hb] at hacc; exact hacc⟩
      · rw [if_neg hacc] at hstep
        exact Or.inl hstep
    · have hltb' : ∀ b, best = some b → pr.2 < b.2 := by
        intro b hb
        by_cases hacc : betterThan p.2 best
        · have hpb : p.2 < b.2 := by rw [hb] at hacc; exact hacc
          have : pr.2 < p.2 := hltb p (by rw [argminStep, if_pos hacc])
          exact lt_trans this hpb
        · exact hltb b (by rw [argminStep, if_neg hacc, hb])
      have hprp : pr.2 < p.2 := by
        by_cases hacc : betterThan p.2 best
        · exact hltb p (by rw [argminStep, if_pos hacc])
        · cases hbb : best with
          | none => rw [hbb] at hacc; exact absurd trivial hacc
          | some b0 =>
            rw [hbb] at hacc
            exact lt_of_lt_of_le (hltb' b0 hbb) (not_lt.mp hacc)
      refine Or.inr ⟨p :: ps1, ps2, by rw [hsplit]; rfl, ?_, hltb'⟩
      intro q hq
      rcases List.mem_cons.mp hq with rfl | hq
      · exact hprp
      · exact hlt1 q hq

theorem candPairs_mem_elim (statuses : List (Option HitLabel))
    (piece : DrumPiece) (hitBeat window : ℚ) (l : List NotatedEvent) :
    ∀ (i : Nat) (pr : Nat × ℚ),
    pr ∈ candPairs statuses piece hitBeat window i l →
      ∃ k ev, l.get? k = some ev ∧ pr.1 = i + k ∧
        isCandidate statuses piece hitBeat window pr.1 ev ∧
        pr.2 = |ev.event.beat - hitBeat| := by
  induction l with
  | nil => intro i pr h; simp [candPairs] at h
  | cons ev rest ih =>
    intro i pr h
    rw [candPairs] at h
    by_cases hc : isCandidate statuses piece hitBeat window i ev
    · rw [if_pos hc] at h
      rcases List.mem_cons.mp h with rfl | h
      · exact ⟨0, ev, rfl, by simp, by simpa using hc, rfl⟩
      · obtain ⟨k, ev', hget, hidx, hcand, hdist⟩ := ih (i + 1) pr h
        exact ⟨k + 1, ev', by simpa using hget, by omega, hcand, hdist⟩
    · rw [if_neg hc] at h
      obtain ⟨k, ev', hget, hidx, hcand, hdist⟩ := ih (i + 1) pr h
      exact ⟨k + 1, ev', by simpa using hget, by omega, hcand, hdist⟩

theorem candPairs_mem_intro (statuses : List (Option HitLabel))
    (piece : DrumPiece) (hitBeat window : ℚ) (l : List NotatedEvent) :
    ∀ (i k : Nat) (ev : NotatedEvent),
    l.get? k = some ev →
    isCandidate statuses piece hitBeat window (i + k) ev →
      (i + k, |ev.event.beat - hitBeat|) ∈
        candPairs statuses piece hitBeat window i l := by
  induction l with
  | nil => intro i k ev hget; simp at hget
  | cons ev0 rest ih =>
    intro i k ev hget hcand
    rw [candPairs]
    cases k with
    | zero =>
      have hev : ev0 = ev := by simpa using hget
      subst hev
      rw [if_pos (by simpa using hcand)]
      simp
    | succ k =>
      have hget' : rest.get? k = some ev := by simpa using hget
      have hcand' : isCandidate statuses piece hitBeat window ((i + 1) + k) ev := by
        have : (i + 1) + k = i + (k + 1) := by omega
        rw [this]; exact hcand
      have hmem := ih (i + 1) k ev hget' hcand'
      have harith : (i + 1) + k = i + (k + 1) := by omega
      rw [harith] at hmem
      by_cases hc : isCandidate statuses piece hitBeat window i ev0
      · rw [if_pos hc]; exact List.mem_cons_of_mem _ hmem
      · rw [if_neg hc]; exact hmem

theorem candPairs_pairwise (statuses : List (Option HitLabel))
    (piece : DrumPiece) (hitBeat window : ℚ) (l : List NotatedEvent) :
    ∀ i : Nat,
    (candPairs statuses piece hitBeat window i l).Pairwise
      (fun p q => p.1 < q.1) := by
  induction l with
  | nil => intro i; simp [candPairs]
  | cons ev rest ih =>
    intro i
    rw [candPairs]
    by_cases hc : isCandidate statuses piece hitBeat window i ev
    · rw [if_pos hc]
      refine List.Pairwise.cons ?_ (ih (i + 1))
      intro q hq
      obtain ⟨k, ev', _, hidx, _, _⟩ :=
        candPairs_mem_elim statuses piece hitBeat window rest (i + 1) q hq
      simp only
      omega
    · rw [if_neg hc]; exact ih (i + 1)

theorem candPairs_nil_of_no_candidate (statuses : List (Option HitLabel))
    (piece : DrumPiece) (hitBeat window : ℚ) (l : List NotatedEvent) :
    ∀ i : Nat,
    (∀ k ev, l.get? k = some ev →
      ¬ isCandidate statuses piece hitBeat window (i + k) ev) →
    candPairs statuses piece hitBeat window i l = [] := by
  induction l with
  | nil => intro i _; rfl
  | cons ev rest ih =>
    intro i hno
    rw [candPairs]
    rw [if_neg (by simpa using hno 0 ev (by simp))]
    refine ih (i + 1) fun k ev' hget hcand => ?_
    refine hno (k + 1) ev' (by simpa using hget) ?_
    have : i + (k + 1) = (i + 1) + k := by omega
    rw [this]; exact hcand

theorem findBest_none_of_no_candidate (statuses : List (Option HitLabel))
    (pct capMs bpm : ℚ) (piece : DrumPiece) (hitBeat : ℚ)
    (l : List NotatedEvent)
    (hno : ∀ k ev, l.get? k = some ev →
      ¬ isCandidate statuses piece hitBeat
        (min (pct / 100) (capMs / 1000 * bpm / 60)) k ev) :
    findBest statuses pct capMs bpm piece hitBeat 0 l none = none := by
  rw [findBest_eq_argminFold]
  rw [candPairs_nil_of_no_candidate statuses piece hitBeat _ l 0
    (fun k ev hget hcand => hno k ev hget (by simpa using hcand))]
  rfl

theorem findBest_isSome_of_candidate (statuses : List (Option HitLabel))
    (pct capMs bpm : ℚ) (piece : DrumPiece) (hitBeat : ℚ)
    (l : List NotatedEvent) (k : Nat) (ev : NotatedEvent)
    (hget : l.get? k = some ev)
    (hcand : isCandidate statuses piece hitBeat
      (min (pct / 100) (capMs / 1000 * bpm / 60)) k ev) :
    ∃ idx d, findBest statuses pct capMs bpm piece hitBeat 0 l none =
      some (idx, d) := by
  rw [findBest_eq_argminFold]
  have hmem := candPairs_mem_intro statuses piece hitBeat _ l 0 k ev hget
    (by simpa using hcand)
  rcases hcp : candPairs statuses piece hitBeat
      (min (pct / 100) (capMs / 1000 * bpm / 60)) 0 l with _ | ⟨pr, ps⟩
  · rw [hcp] at hmem; simp at hmem
  · rw [argminFold_cons]
    have hstep : argminStep none pr = some pr := by
      rw [argminStep, if_pos (show betterThan pr.2 none from trivial)]
    rw [hstep]
    obtain ⟨q, hq⟩ := argminFold_some_isSome ps pr
    exact ⟨q.1, q.2, by rw [hq]⟩

theorem findBest_some_spec (statuses : List (Option HitLabel))
    (pct capMs bpm : ℚ) (piece : DrumPiece) (hitBeat : ℚ)
    (l : List NotatedEvent) (idx : Nat) (d : ℚ)
    (hfb : findBest statuses pct capMs bpm piece hitBeat 0 l none =
      some (idx, d)) :
    ∃ ev, l.get? idx = some ev ∧
      isCandidate statuses piece hitBeat
        (min (pct / 100) (capMs / 1000 * bpm / 60)) idx ev ∧
      d = |ev.event.beat - hitBeat| ∧
      (∀ k ev', l.get? k = some ev' →
        isCandidate statuses piece hitBeat
          (min (pct / 100) (capMs / 1000 * bpm / 60)) k ev' →
        d ≤ |ev'.event.beat - hitBeat|) ∧
      (∀ k ev', l.get? k = some ev' →
        isCandidate statuses piece hitBeat
          (min (pct / 100) (capMs / 1000 * bpm / 60)) k ev' →
        |ev'.event.beat - hitBeat| = d → idx ≤ k) := by
  rw [findBest_eq_argminFold] at hfb
  rcases argminFold_mem _ _ _ hfb with habs | hmem
  · exact absurd habs (by simp)
  obtain ⟨k0, ev, hget, hidx, hcand, hdist⟩ :=
    candPairs_mem_elim statuses piece hitBeat _ l 0 _ hmem
  simp only at hidx hdist
  have hidx' : idx = k0 := by omega
  subst hidx'
  refine ⟨ev, hget, hcand, hdist, ?_, ?_⟩
  · intro k ev' hget' hcand'
    have hmem' := candPairs_mem_intro statuses piece hitBeat _ l 0 k ev' hget'
      (by simpa using hcand')
    have := (argminFold_min _ _ _ hfb).1 _ hmem'
    simpa using this
  · intro k ev' hget' hcand' htie
    have hmem' := candPairs_mem_intro statuses piece hitBeat _ l 0 k ev' hget'
      (by simpa using hcand')
    rw [htie] at hmem'
    rcases argminFold_first _ _ _ hfb with habs | ⟨ps1, ps2, hsplit, hlt1, _⟩
    · exact absurd habs (by simp)
    have hpw := candPairs_pairwise statuses piece hitBeat
      (min (pct / 100) (capMs / 1000 * bpm / 60)) l 0
    rw [hsplit] at hmem' hpw
    rcases List.mem_append.mp hmem' with h1 | h2
    · exact absurd (hlt1 _ h1) (by simp)
    · rcases List.mem_cons.mp h2 with heq | h2
      · have h3 : 0 + k = idx := congrArg Prod.fst heq
        omega
      · have hrel := (List.pairwise_cons.mp (List.pairwise_append.mp hpw).2.1).1
        have h3 := hrel _ h2
        simp only at h3
        omega

/-! ## Helper lemmas about the missed-event scan -/

theorem missedLoop_length (w h : ℚ) (l : List NotatedEvent) :
    ∀ (i : Nat) (sts : List (Option HitLabel)),
    (missedLoop w h i l sts).length = sts.length := by
  induction l with
  | nil => intro i sts; rfl
  | cons ev rest ih =>
    intro i sts
    rw [missedLoop]
    by_cases hc : statusAt sts i = none ∧ ev.event.beat + w < h
    · rw [if_pos hc, ih]; simp
    · rw [if_neg hc, ih]

theorem missedLoop_statusAt_lt (w h : ℚ) (l : List NotatedEvent) :
    ∀ (i : Nat) (sts : List (Option HitLabel)) (j : Nat), j < i →
    statusAt (missedLoop w h i l sts) j = statusAt sts j := by
  induction l with
  | nil => intro i sts j _; rfl
  | cons ev rest ih =>
    intro i sts j hj
    rw [missedLoop]
    by_cases hc : statusAt sts i = none ∧ ev.event.beat + w < h
    · rw [if_pos hc, ih _ _ _ (by omega), statusAt_set_ne _ _ _ _ (by omega)]
    · rw [if_neg hc, ih _ _ _ (by omega)]

theorem missedLoop_preserves_some (w h : ℚ) (l : List NotatedEvent) :
    ∀ (i : Nat) (sts : List (Option HitLabel)) (j : Nat) (lab : HitLabel),
    statusAt sts j = some lab →
    statusAt (missedLoop w h i l sts) j = some lab := by
  induction l with
  | nil => intro i sts j lab hj; exact hj
  | cons ev rest ih =>
    intro i sts j lab hj
    rw [missedLoop]
    by_cases hc : statusAt sts i = none ∧ ev.event.beat + w < h
    · rw [if_pos hc]
      have hij : i ≠ j := fun he => by rw [he, hj] at hc; exact absurd hc.1 (by simp)
      exact ih _ _ _ _ (by rw [statusAt_set_ne _ _ _ _ hij]; exact hj)
    · rw [if_neg hc]; exact ih _ _ _ _ hj

theorem missedLoop_sets_missed (w h : ℚ) (l : List NotatedEvent) :
    ∀ (k i : Nat) (sts : List (Option HitLabel)) (ev : NotatedEvent),
    l.get? k = some ev → statusAt sts (i + k) = none → i + k < sts.length →
    ev.event.beat + w < h →
    statusAt (missedLoop w h i l sts) (i + k) = some HitLabel.Missed := by
  induction l with
  | nil => intro k i sts ev hget; simp at hget
  | cons ev0 rest ih =>
    intro k i sts ev hget hnone hlen hdue
    rw [missedLoop]
    cases k with
    | zero =>
      have hev : ev0 = ev := by simpa using hget
      subst hev
      simp only [Nat.add_zero] at hnone hlen
      rw [if_pos ⟨hnone, hdue⟩]
      refine missedLoop_preserves_some w h rest _ _ _ _ ?_
      simpa using statusAt_set_self sts i (some HitLabel.Missed) hlen
    | succ k =>
      have hget' : rest.get? k = some ev := by simpa using hget
      have hne : i ≠ i + (k + 1) := by omega
      have harith : (i + 1) + k = i + (k + 1) := by omega
      by_cases hc : statusAt sts i = none ∧ ev0.event.beat + w < h
      · rw [if_pos hc]
        have := ih k (i + 1) (sts.set i (some HitLabel.Missed)) ev hget'
          (by rw [harith, statusAt_set_ne _ _ _ _ hne]; exact hnone)
          (by rw [harith]; simpa using hlen) hdue
        rw [harith] at this
        exact this
      · rw [if_neg hc]
        have := ih k (i + 1) sts ev hget'
          (by rw [harith]; exact hnone) (by rw [harith]; exact hlen) hdue
        rw [harith] at this
        exact this

theorem missedLoop_not_due (w h : ℚ) (l : List NotatedEvent) :
    ∀ (k i : Nat) (sts : List (Option HitLabel)),
    statusAt sts (i + k) = none →
    (∀ ev, l.get? k = some ev → ¬ (ev.event.beat + w < h)) →
    statusAt (missedLoop w h i l sts) (i + k) = none := by
  induction l with
  | nil => intro k i sts hnone _; exact hnone
  | cons ev0 rest ih =>
    intro k i sts hnone hnot
    rw [missedLoop]
    cases k with
    | zero =>
      simp only [Nat.add_zero] at hnone ⊢
      rw [if_neg (fun hc => hnot ev0 (by simp) hc.2)]
      rw [missedLoop_statusAt_lt w h rest (i + 1) sts i (by omega)]
      exact hnone
    | succ k =>
      have hne : i ≠ i + (k + 1) := by omega
      have harith : (i + 1) + k = i + (k + 1) := by omega
      have hnot' : ∀ ev, rest.get? k = some ev → ¬ (ev.event.beat + w < h) :=
        fun ev hget => hnot ev (by simpa using hget)
      by_cases hc : statusAt sts i = none ∧ ev0.event.beat + w < h
      · rw [if_pos hc]
        have := ih k (i + 1) (sts.set i (some HitLabel.Missed))
          (by rw [harith, statusAt_set_ne _ _ _ _ hne]; exact hnone) hnot'
        rw [harith] at this
        exact this
      · rw [if_neg hc]
        have := ih k (i + 1) sts (by rw [harith]; exact hnone) hnot'
        rw [harith] at this
        exact this

/-! ## Helper lemmas about the batch scoring loop -/

theorem scoreLoop_spec (spb : ℚ) (ps : List (NotatedEvent × DrumEvent)) :
    ∀ m e lt : Nat,
    scoreLoop spb ps (m, e, lt) =
      (m + ps.countP (hitPairMatched spb),
       e + ps.countP (hitPairEarly spb),
       lt + ps.countP (hitPairLate spb)) := by
  induction ps with
  | nil => intro m e lt; simp [scoreLoop]
  | cons pr rest ih =>
    obtain ⟨expected, actual⟩ := pr
    intro m e lt
    rw [scoreLoop]
    by_cases h1 : |(actual.beat - expected.event.beat) * spb * 1000| < 50
    · rw [if_pos h1]
      by_cases h2 : actual.beat - expected.event.beat < 0
      · rw [if_pos h2, ih]
        simp [List.countP_cons, hitPairMatched, hitPairEarly, hitPairLate, h1, h2,
          not_lt_of_gt h2]
        omega
      · rw [if_neg h2]
        by_cases h3 : actual.beat - expected.event.beat > 0
        · rw [if_pos h3, ih]
          simp [List.countP_cons, hitPairMatched, hitPairEarly, hitPairLate,
            h1, h2, h3]
          omega
        · rw [if_neg h3, ih]
          simp [List.countP_cons, hitPairMatched, hitPairEarly, hitPairLate,
            h1, h2, h3]
          omega
    · rw [if_neg h1, ih]
      simp [List.countP_cons, hitPairMatched, hitPairEarly, hitPairLate, h1]

/-! ## Claim C7 -/

/-- The result of `duration_between_beats` depends only on the first tempo
event: the loop never advances `current`, so later tempo events are
ignored (helper for the C7 analysis). -/
theorem duration_between_beats_head_only (m m' : TempoMap) (b0 b1 : ℚ)
    (h : m.events.head m.events_nonempty = m'.events.head m'.events_nonempty) :
    m.duration_between_beats b0 b1 = m'.duration_between_beats b0 b1 := by
  unfold TempoMap.duration_between_beats
  rw [h]

/-- C7: the claim states that `duration_between_beats` accumulates seconds
in 1-beat steps using the tempo active at each step's start, so a map
whose tempo changes between the two beats reflects the BPM of each
segment.  The code does not: the loop's `current` tempo event is
initialised to `events[0]` and never advanced, so the whole interval is
priced at the first event's tempo.  `tempoChangeMap` switches from 120 to
60 BPM at 0.5 s (i.e. at beat 1), so beats 0→2 should take
0.5 s + 1 s = 1.5 s per the claim; the code yields 1 s — exactly what the
constant-120 map gives. -/
theorem duration_between_beats_ignores_tempo_changes :
    tempoChangeMap.duration_between_beats 0 2 = 1 ∧
    tempoChangeMap.duration_between_beats 0 2 =
      constMap120.duration_between_beats 0 2 ∧
    tempoChangeMap.duration_between_beats 0 2 ≠ 3/2 := by
  refine ⟨?_, duration_between_beats_head_only tempoChangeMap constMap120
    0 2 rfl, ?_⟩
  · norm_num [TempoMap.duration_between_beats, durationLoop, tempoChangeMap,
      TempoEvent.seconds_per_beat]
  · norm_num [TempoMap.duration_between_beats, durationLoop, tempoChangeMap,
      TempoEvent.seconds_per_beat]

/-! ## Claim C8 -/

/-- C8: `TempoEvent::new` returns a validation error for negative time,
BPM outside [10, 400], a zero time-signature numerator, or a
non-power-of-two denominator, and succeeds for (0, 120, (4,4));
`TempoMap::new` returns a validation error when the event list is empty or
when the earliest event's time after sorting is not exactly 0.  Errors are
returned through `Except`, so no value is partially constructed. -/
theorem tempo_validation_rejects_invalid :
    (∀ (t b : ℚ) (sig : Nat × Nat),
      (t < 0 ∨ b < 10 ∨ 400 < b ∨ sig.1 = 0 ∨ isPowerOfTwo sig.2 = false) →
      ∃ msg, TempoEvent.new t b sig = Except.error (DomainError.validation msg)) ∧
    TempoEvent.new 0 120 (4, 4) =
      Except.ok { time := 0, bpm := 120, signature := (4, 4) } ∧
    (∃ msg, TempoMap.new [] = Except.error (DomainError.validation msg)) ∧
    (∀ (evs : List TempoEvent) (first : TempoEvent) (rest : List TempoEvent),
      sortByTime evs = first :: rest → first.time ≠ 0 →
      ∃ msg, TempoMap.new evs = Except.error (DomainError.validation msg)) := by
  refine ⟨?_, ?_, ⟨_, rfl⟩, ?_⟩
  · intro t b sig hbad
    unfold TempoEvent.new
    by_cases h1 : t < 0
    · rw [if_pos h1]; exact ⟨_, rfl⟩
    rw [if_neg h1]
    by_cases h2 : ¬(10 ≤ b ∧ b ≤ 400)
    · rw [if_pos h2]; exact ⟨_, rfl⟩
    rw [if_neg h2]
    by_cases h3 : sig.1 = 0 ∨ ¬(isPowerOfTwo sig.2)
    · rw [if_pos h3]; exact ⟨_, rfl⟩
    exfalso
    push_neg at h1 h2 h3
    rcases hbad with h | h | h | h | h
    · linarith
    · linarith [h2.1]
    · linarith [h2.2]
    · exact h3.1 h
    · rw [h3.2] at h; cases h
  · have h4 : isPowerOfTwo 4 = true := by simp [isPowerOfTwo, countOnes]
    norm_num [TempoEvent.new, h4]
  · intro evs first rest hsort h0
    unfold TempoMap.new
    rw [hsort]
    exact ⟨"tempo map must start at time 0", by simp [h0]⟩

/-- Witness for C8: the spec's four concrete probes. -/
theorem tempo_validation_rejects_invalid_witness :
    (∃ msg, TempoEvent.new (-1) 120 (4, 4) =
      Except.error (DomainError.validation msg)) ∧
    (∃ msg, TempoEvent.new 0 5 (4, 4) =
      Except.error (DomainError.validation msg)) ∧
    (∃ msg, TempoEvent.new 0 120 (3, 5) =
      Except.error (DomainError.validation msg)) ∧
    (∃ msg, TempoMap.new [⟨1, 120, (4, 4)⟩] =
      Except.error (DomainError.validation msg)) :=
  ⟨tempo_validation_rejects_invalid.1 (-1) 120 (4, 4) (Or.inl (by norm_num)),
   tempo_validation_rejects_invalid.1 0 5 (4, 4)
     (Or.inr (Or.inl (by norm_num))),
   tempo_validation_rejects_invalid.1 0 120 (3, 5)
     (Or.inr (Or.inr (Or.inr (Or.inr (by simp [isPowerOfTwo, countOnes]))))),
   tempo_validation_rejects_invalid.2.2.2 [⟨1, 120, (4, 4)⟩] ⟨1, 120, (4, 4)⟩ []
     rfl (by norm_num)⟩

/-! ## Claim C9 -/

/-- C9: the batch scorer compares the i-th expected notation event only
with the i-th captured hit (positional `zip`, not piece-aware, not
nearest-neighbor), counts a pair matched iff
`|delta_beats * secondsPerBeat * 1000| < 50` ms, reports
`accuracy = matchedCount / notation.length` with early/late counts among
matched pairs, and returns the explicit empty report for an empty chart
with no division performed. -/
theorem batch_scoring_positional_pairwise (lesson : LessonDescriptor)
    (hits : List DrumEvent) (spb : ℚ) :
    (lesson.noted = [] → score_with_spb lesson hits spb = PerformanceReport.empty) ∧
    (lesson.noted ≠ [] →
      score_with_spb lesson hits spb =
        { accuracy := ((lesson.noted.zip hits).countP (hitPairMatched spb) : ℚ) /
            (lesson.noted.length : ℚ)
          early_hits := (lesson.noted.zip hits).countP (hitPairEarly spb)
          late_hits := (lesson.noted.zip hits).countP (hitPairLate spb) }) := by
  constructor
  · intro h
    rw [score_with_spb, if_pos (by rw [h]; rfl)]
  · intro h
    rw [score_with_spb, if_neg (by simpa [List.isEmpty_iff] using h)]
    rw [scoreLoop_spec]
    simp

/-- Witness for C9: the empty chart gives the empty report; on the
two-note `demoLesson` with `demoHits` at 120 BPM (spb = 1/2) the first
pair is 5 ms late (matched), the second is 50 ms late (not < 50 ms,
unmatched). -/
theorem batch_scoring_positional_pairwise_witness :
    (emptyLesson.noted = [] ∧
      score_with_spb emptyLesson demoHits (1/2) = PerformanceReport.empty) ∧
    (demoLesson.noted ≠ [] ∧
      score_with_spb demoLesson demoHits (1/2) =
        { accuracy := ((demoLesson.noted.zip demoHits).countP
              (hitPairMatched (1/2)) : ℚ) / (demoLesson.noted.length : ℚ)
          early_hits := (demoLesson.noted.zip demoHits).countP
            (hitPairEarly (1/2))
          late_hits := (demoLesson.noted.zip demoHits).countP
            (hitPairLate (1/2)) }) :=
  ⟨⟨rfl, (batch_scoring_positional_pairwise emptyLesson demoHits (1/2)).1 rfl⟩,
   ⟨by simp [demoLesson], (batch_scoring_positional_pairwise demoLesson
      demoHits (1/2)).2 (by simp [demoLesson])⟩⟩

/-! ## Claim C1 -/

/-- C1: for a live strike of piece `piece` processed with a session loaded,
write `hb` for the latency-compensated hit beat, `w` for
`matchWindowBeats = min(matchWindowPct/100, matchCapMs/1000 * bpm/60)` and
`ot` for `onTimeBeats = min(onTimePct/100, onTimeCapMs/1000 * bpm/60)`
(the pane's current BPM is the `bpmNow` of the claim).  The candidate set
is exactly `isCandidate` (same piece, status `None`, `|delta| < w`).  If
any candidate exists, the matcher resolves a candidate of minimal
`|delta|`: its status entry is set to `OnTime` when `|hb − expected| < ot`,
else `Late` when the delta is positive, else `Early`, and the strike is
appended to the captured-hits log (the session's `register_hit` also runs,
as in the source). -/
theorem hit_matcher_resolves_nearest_candidate (p : TutorPane)
    (session : SessionState) (piece : DrumPiece) (vel : Nat) (hb w ot : ℚ)
    (hsess : p.session = some session)
    (hhb : hb = max (p.playhead - p.latency_ms / 1000 * p.bpm / 60) 0)
    (hw : w = min (p.practice_match_window_pct / 100)
      (p.practice_match_cap_ms / 1000 * p.bpm / 60))
    (hot : ot = min (p.practice_on_time_pct / 100)
      (p.practice_on_time_cap_ms / 1000 * p.bpm / 60))
    (hex : ∃ k ev, session.lesson.noted.get? k = some ev ∧
      isCandidate p.statuses piece hb w k ev) :
    ∃ idx ev, session.lesson.noted.get? idx = some ev ∧
      isCandidate p.statuses piece hb w idx ev ∧
      (∀ k ev', session.lesson.noted.get? k = some ev' →
        isCandidate p.statuses piece hb w k ev' →
        |ev.event.beat - hb| ≤ |ev'.event.beat - hb|) ∧
      handleLiveHit p piece vel =
        { p with
          statuses := p.statuses.set idx (some (
            if |hb - ev.event.beat| < ot then HitLabel.OnTime
            else if hb - ev.event.beat > 0 then HitLabel.Late
            else HitLabel.Early))
          session := some (session.register_hit
            (DrumEvent.new hb piece vel DrumArticulation.Normal))
          hits := p.hits ++ [DrumEvent.new hb piece vel DrumArticulation.Normal] } := by
  subst hhb hw hot
  obtain ⟨k0, ev0, hget0, hcand0⟩ := hex
  obtain ⟨idx, d, hfb⟩ := findBest_isSome_of_candidate p.statuses
    p.practice_match_window_pct p.practice_match_cap_ms p.bpm piece _
    session.lesson.noted k0 ev0 hget0 hcand0
  obtain ⟨ev, hget, hcand, hdist, hmin, _⟩ :=
    findBest_some_spec _ _ _ _ _ _ _ _ _ hfb
  refine ⟨idx, ev, hget, hcand, ?_, ?_⟩
  · intro k ev' hget' hcand'
    have := hmin k ev' hget' hcand'
    rw [hdist] at this
    exact this
  · simp only [handleLiveHit, hsess, hfb, hget]

/-- Witness for C1: on `basePane` (playhead 0.01, no latency) a snare
strike has the beat-0 snare note as a candidate — 0.01 beats away, inside
the 0.125-beat window — so the theorem applies. -/
theorem hit_matcher_resolves_nearest_candidate_witness :
    ∃ idx ev, demoLesson.noted.get? idx = some ev ∧
      isCandidate basePane.statuses DrumPiece.Snare (1/100) (1/8) idx ev ∧
      (∀ k ev', demoLesson.noted.get? k = some ev' →
        isCandidate basePane.statuses DrumPiece.Snare (1/100) (1/8) k ev' →
        |ev.event.beat - 1/100| ≤ |ev'.event.beat - 1/100|) ∧
      handleLiveHit basePane DrumPiece.Snare 90 =
        { basePane with
          statuses := basePane.statuses.set idx (some (
            if |(1/100 : ℚ) - ev.event.beat| < 3/40 then HitLabel.OnTime
            else if (1/100 : ℚ) - ev.event.beat > 0 then HitLabel.Late
            else HitLabel.Early))
          session := some ((⟨demoLesson, PracticeMode.Learn, 0, false⟩ :
            SessionState).register_hit
            (DrumEvent.new (1/100) DrumPiece.Snare 90 DrumArticulation.Normal))
          hits := basePane.hits ++
            [DrumEvent.new (1/100) DrumPiece.Snare 90 DrumArticulation.Normal] } :=
  hit_matcher_resolves_nearest_candidate basePane
    ⟨demoLesson, PracticeMode.Learn, 0, false⟩ DrumPiece.Snare 90
    (1/100) (1/8) (3/40) rfl (by norm_num [basePane])
    (by norm_num [basePane]) (by norm_num [basePane])
    ⟨0, mkNote 0 DrumPiece.Snare, rfl,
      by norm_num [isCandidate, statusAt, basePane, mkNote, NotatedEvent.new,
        DrumEvent.new, abs_lt]⟩

/-! ## Claim C2 -/

/-- C2 as stated is false: the source pushes the captured strike inside the
`if let Some((idx, _)) = best` branch only, so a strike with no qualifying
candidate is dropped entirely.  On `farPane` the only notation entry is a
snare at beat 10, far outside the match window of a strike at hit beat 0,
yet `capturedHits` stays empty (the claim requires it to contain the
strike); the whole pane is unchanged. -/
theorem unmatched_strike_not_recorded_counterexample :
    farPane.hits = [] ∧
    handleLiveHit farPane DrumPiece.Snare 90 = farPane ∧
    (handleLiveHit farPane DrumPiece.Snare 90).hits = [] := by
  have hfb : findBest farPane.statuses farPane.practice_match_window_pct
      farPane.practice_match_cap_ms farPane.bpm DrumPiece.Snare
      (max (farPane.playhead - farPane.latency_ms / 1000 * farPane.bpm / 60) 0)
      0 farLesson.noted none = none := by
    norm_num [findBest, farPane, farLesson, basePane, statusAt, mkNote,
      NotatedEvent.new, DrumEvent.new]
  have heq : handleLiveHit farPane DrumPiece.Snare 90 = farPane := by
    simp only [handleLiveHit]
    rw [show farPane.session = some ⟨farLesson, PracticeMode.Learn, 0, false⟩
      from rfl]
    simp only [hfb]
  exact ⟨rfl, heq, by rw [heq]; rfl⟩

/-- C2 amended: for every live strike for which no candidate qualifies, the
strike is NOT recorded in the captured-hits log and no state changes at
all — `handle_live_hit` returns the pane unchanged (in particular no
`StatusTable` entry changes). -/
theorem unmatched_strike_changes_nothing (p : TutorPane)
    (session : SessionState) (piece : DrumPiece) (vel : Nat) (hb w : ℚ)
    (hsess : p.session = some session)
    (hhb : hb = max (p.playhead - p.latency_ms / 1000 * p.bpm / 60) 0)
    (hw : w = min (p.practice_match_window_pct / 100)
      (p.practice_match_cap_ms / 1000 * p.bpm / 60))
    (hno : ∀ k ev, session.lesson.noted.get? k = some ev →
      ¬ isCandidate p.statuses piece hb w k ev) :
    handleLiveHit p piece vel = p := by
  subst hhb hw
  have hfb := findBest_none_of_no_candidate p.statuses
    p.practice_match_window_pct p.practice_match_cap_ms p.bpm piece _
    session.lesson.noted hno
  simp only [handleLiveHit, hsess, hfb]

/-- Witness for C2 (amended): the `farPane` strike qualifies nowhere
(|10 − 0| is not below the 0.125-beat window), and the pane is returned
unchanged. -/
theorem unmatched_strike_changes_nothing_witness :
    handleLiveHit farPane DrumPiece.Snare 90 = farPane :=
  unmatched_strike_changes_nothing farPane
    ⟨farLesson, PracticeMode.Learn, 0, false⟩ DrumPiece.Snare 90 0 (1/8)
    rfl (by norm_num [farPane, basePane]) (by norm_num [farPane, basePane])
    (by
      intro k ev hget hcand
      cases k with
      | zero =>
        have hev : ev = mkNote 10 DrumPiece.Snare := by
          simpa [farLesson] using hget.symm
        rw [hev] at hcand
        have := hcand.2.2
        norm_num [mkNote, NotatedEvent.new, DrumEvent.new, abs_lt] at this
      | succ k => simp [farLesson] at hget)

/-! ## Claim C3 -/

/-- C3: once a status entry holds a non-`None` label, processing any
subsequent live strike leaves it unchanged — resolved entries are excluded
from candidacy, and the matcher writes only the entry of the candidate it
selects. -/
theorem resolved_entries_never_overwritten (p : TutorPane)
    (piece : DrumPiece) (vel : Nat) (i : Nat) (lab : HitLabel)
    (hres : statusAt p.statuses i = some lab) :
    statusAt (handleLiveHit p piece vel).statuses i = some lab := by
  rcases hsess : p.session with _ | session
  · simp only [handleLiveHit, hsess]
    exact hres
  · rcases hfb : findBest p.statuses p.practice_match_window_pct
        p.practice_match_cap_ms p.bpm piece
        (max (p.playhead - p.latency_ms / 1000 * p.bpm / 60) 0) 0
        session.lesson.noted none with _ | ⟨idx, d⟩
    · simp only [handleLiveHit, hsess, hfb]
      exact hres
    · obtain ⟨ev, hget, hcand, _⟩ := findBest_some_spec _ _ _ _ _ _ _ _ _ hfb
      have hne : idx ≠ i := by
        intro he
        rw [he] at hcand
        rw [hcand.2.1] at hres
        cases hres
      simp only [handleLiveHit, hsess, hfb, hget]
      rw [statusAt_set_ne _ _ _ _ hne]
      exact hres

/-- Witness for C3: on a pane whose first entry is already resolved
(`Early`), a snare strike leaves that entry intact. -/
theorem resolved_entries_never_overwritten_witness :
    statusAt { basePane with
      statuses := [some HitLabel.Early, none] }.statuses 0 = some HitLabel.Early ∧
    statusAt (handleLiveHit { basePane with
      statuses := [some HitLabel.Early, none] } DrumPiece.Snare 90).statuses 0 =
      some HitLabel.Early :=
  ⟨rfl, resolved_entries_never_overwritten
    { basePane with statuses := [some HitLabel.Early, none] }
    DrumPiece.Snare 90 0 HitLabel.Early rfl⟩

/-! ## Claim C10 -/

/-- C10: the best-candidate comparison is strict — a later candidate
replaces the current best only when strictly closer — so among qualifying
candidates the selected one has minimal `|delta|`, and among candidates at
exactly that minimal distance (in particular, exactly equidistant ties) it
has the smallest notation index; the selection is a function of the scan
inputs, hence deterministic across repeated runs. -/
theorem tie_break_selects_smallest_index (statuses : List (Option HitLabel))
    (pct capMs bpm : ℚ) (piece : DrumPiece) (hitBeat : ℚ)
    (l : List NotatedEvent) (idx : Nat) (d w : ℚ)
    (hw : w = min (pct / 100) (capMs / 1000 * bpm / 60))
    (hfb : findBest statuses pct capMs bpm piece hitBeat 0 l none =
      some (idx, d)) :
    (∀ k ev, l.get? k = some ev → isCandidate statuses piece hitBeat w k ev →
      d ≤ |ev.event.beat - hitBeat|) ∧
    (∀ k ev, l.get? k = some ev → isCandidate statuses piece hitBeat w k ev →
      |ev.event.beat - hitBeat| = d → idx ≤ k) := by
  subst hw
  obtain ⟨ev, _, _, _, hmin, hfirst⟩ := findBest_some_spec _ _ _ _ _ _ _ _ _ hfb
  exact ⟨hmin, hfirst⟩

/-- Witness for C10: `tieLesson` has same-piece notes at beats 1 and 6/5,
both exactly 1/10 from a hit at beat 11/10 and both inside the 0.25-beat
window; the scan returns index 0, and the theorem yields the tie-break
bound. -/
theorem tie_break_selects_smallest_index_witness :
    findBest [none, none] 25 200 120 DrumPiece.Snare (11/10) 0
      tieLesson.noted none = some (0, 1/10) ∧
    (∀ k ev, tieLesson.noted.get? k = some ev →
      isCandidate [none, none] DrumPiece.Snare (11/10) (1/4) k ev →
      |ev.event.beat - 11/10| = 1/10 → 0 ≤ k) := by
  have hfb : findBest [none, none] 25 200 120 DrumPiece.Snare (11/10) 0
      tieLesson.noted none = some (0, 1/10) := by
    norm_num [findBest, tieLesson, statusAt, mkNote, NotatedEvent.new,
      DrumEvent.new, abs, min_def, max_def, betterThan]
  exact ⟨hfb, (tie_break_selects_smallest_index [none, none] 25 200 120
    DrumPiece.Snare (11/10) tieLesson.noted 0 (1/10) (1/4)
    (by norm_num) hfb).2⟩

/-! ## Claim C4 -/

/-- C4 as stated is false: the missed-event scan of the Playing tick runs
only when the mode is not FreePlay (`if self.mode != PracticeUIMode::FreePlay`).
`freePlayOverduePane` is mid-tick in FreePlay with its only entry (beat 0)
still `None` and long overdue — beat 0 plus the 1/8-beat window is far
below the playhead at beat 4 — yet the scan leaves the entry `None`
instead of `Missed` as the claim requires. -/
theorem missed_detection_skipped_in_freeplay_counterexample :
    freePlayOverduePane.mode = PracticeUIMode.FreePlay ∧
    statusAt freePlayOverduePane.statuses 0 = none ∧
    (mkNote 0 DrumPiece.Snare).event.beat +
      min (freePlayOverduePane.practice_match_window_pct / 100)
        (freePlayOverduePane.practice_match_cap_ms / 1000 *
          freePlayOverduePane.bpm / 60) < freePlayOverduePane.playhead ∧
    statusAt (missedDetectionStep freePlayOverduePane false).statuses 0 = none := by
  refine ⟨rfl, rfl, ?_, ?_⟩
  · norm_num [mkNote, NotatedEvent.new, DrumEvent.new, freePlayOverduePane,
      basePane, min_def]
  · rfl

/-- C4 amended: on a Playing tick in Test mode (not FreePlay — the source
gates the scan on the mode), each StatusTable entry that is still `None`
and whose `expected.beat + matchWindowBeats < playheadBeat` is set to
`Missed`; in every mode, no entry is ever set to `Missed` before the
playhead exceeds `expected.beat + matchWindowBeats`, and resolved entries
are untouched. -/
theorem missed_detection_marks_overdue_in_test_mode (p : TutorPane)
    (session : SessionState) (useLT : Bool) (i : Nat) (w : ℚ)
    (hsess : p.session = some session)
    (hw : w = min (p.practice_match_window_pct / 100)
      (p.practice_match_cap_ms / 1000 *
        (if useLT then session.lesson.default_tempo.bpm_at p.elapsed_secs
         else p.bpm) / 60)) :
    (∀ ev, p.mode = PracticeUIMode.Test → i < p.statuses.length →
      statusAt p.statuses i = none → session.lesson.noted.get? i = some ev →
      ev.event.beat + w < p.playhead →
      statusAt (missedDetectionStep p useLT).statuses i = some HitLabel.Missed) ∧
    (statusAt p.statuses i = none →
      (∀ ev, session.lesson.noted.get? i = some ev →
        ¬ (ev.event.beat + w < p.playhead)) →
      statusAt (missedDetectionStep p useLT).statuses i = none) ∧
    (∀ lab, statusAt p.statuses i = some lab →
      statusAt (missedDetectionStep p useLT).statuses i = some lab) := by
  subst hw
  refine ⟨?_, ?_, ?_⟩
  · intro ev hmode hlen hnone hget hdue
    simp only [missedDetectionStep, hsess, hmode]
    rw [if_pos (by simp)]
    have := missedLoop_sets_missed _ p.playhead session.lesson.noted i 0
      p.statuses ev hget (by simpa using hnone) (by simpa using hlen)
      (by simpa using hdue)
    simpa using this
  · intro hnone hnot
    by_cases hm : p.mode = PracticeUIMode.FreePlay
    · simp only [missedDetectionStep, hsess, hm]
      rw [if_neg (by simp)]
      exact hnone
    · simp only [missedDetectionStep, hsess]
      rw [if_pos hm]
      have := missedLoop_not_due _ p.playhead session.lesson.noted i 0
        p.statuses (by simpa using hnone) (fun ev hget => hnot ev hget)
    
      simpa using this
  · intro lab hsome
    by_cases hm : p.mode = PracticeUIMode.FreePlay
    · simp only [missedDetectionStep, hsess, hm]
      rw [if_neg (by simp)]
      exact hsome
    · simp only [missedDetectionStep, hsess]
      rw [if_pos hm]
      exact missedLoop_preserves_some _ _ _ _ _ _ _ hsome

/-- Witness for C4: the same overdue state in Test mode does get marked
`Missed` (and the theorem's never-premature and preserve-resolved parts
apply to it as well). -/
theorem missed_detection_marks_overdue_in_test_mode_witness :
    statusAt (missedDetectionStep testOverduePane false).statuses 0 =
      some HitLabel.Missed :=
  (missed_detection_marks_overdue_in_test_mode testOverduePane
    ⟨⟨constMap120, [mkNote 0 DrumPiece.Snare], ⟨0, 0⟩⟩,
      PracticeMode.Learn, 0, false⟩ false 0 (1/8) rfl
    (by norm_num [testOverduePane, freePlayOverduePane, basePane, min_def])).1
    (mkNote 0 DrumPiece.Snare) rfl (by norm_num [testOverduePane,
      freePlayOverduePane, basePane]) rfl rfl
    (by norm_num [mkNote, NotatedEvent.new, DrumEvent.new, testOverduePane,
      freePlayOverduePane, basePane])

/-! ## Claim C5 -/

/-- C5: in Test mode with an explicit loop region and a pass target of 2,
the first boundary crossing (`playheadBeat ≥ region end`) increments the
pass counter, rewinds the playhead to the region start and the elapsed
time to 0 (the source zeroes `elapsed_secs` on restart), and clears every
status entry to `None` — while playback continues and no review exists.
The second crossing stops playback, exposes the review, and stores the
batch scorer's report over the captured hits at `spb = 60 / bpm`; the
status table is left untouched there, so across the two crossings it is
cleared exactly once, between pass 1 and pass 2. -/
theorem loop_region_two_pass_test :
    (∀ (p : TutorPane) (session : SessionState) (prb : Nat),
      p.session = some session → p.mode = PracticeUIMode.Test →
      p.loop_use_region = true → p.loop_total = 2 → p.loops_done = 0 →
      p.playhead ≥ max p.loop_b p.loop_a →
      (loopBoundaryStep p prb).loops_done = 1 ∧
      (loopBoundaryStep p prb).playhead = min p.loop_a p.loop_b ∧
      (loopBoundaryStep p prb).elapsed_secs = 0 ∧
      (loopBoundaryStep p prb).statuses = p.statuses.map (fun _ => none) ∧
      (loopBoundaryStep p prb).playing = p.playing ∧
      (loopBoundaryStep p prb).review_active = p.review_active ∧
      (loopBoundaryStep p prb).analytics = p.analytics ∧
      (loopBoundaryStep p prb).hits = p.hits) ∧
    (∀ (q : TutorPane) (session : SessionState) (prb : Nat),
      q.session = some session → q.mode = PracticeUIMode.Test →
      q.loop_use_region = true → q.loop_total = 2 → q.loops_done = 1 →
      q.playhead ≥ max q.loop_b q.loop_a →
      (loopBoundaryStep q prb).playing = false ∧
      (loopBoundaryStep q prb).review_active = true ∧
      (loopBoundaryStep q prb).analytics =
        some ⟨score_with_spb session.lesson q.hits (60 / q.bpm)⟩ ∧
      (loopBoundaryStep q prb).statuses = q.statuses ∧
      (loopBoundaryStep q prb).loops_done = 2) := by
  constructor
  · intro p session prb hsess hmode hreg hlt hld hge
    simp only [loopBoundaryStep, hsess, hreg, if_true]
    rw [if_pos hge, hld, hlt, hmode]
    rw [if_pos (Or.inl (by norm_num))]
    by_cases hc : p.countdown_each_loop
    · rw [if_pos hc]; simp [hreg]
    · rw [if_neg hc]; simp [hreg]
  · intro q session prb hsess hmode hreg hlt hld hge
    simp only [loopBoundaryStep, hsess, hreg, if_true]
    rw [if_pos hge, hld, hlt, hmode]
    rw [if_neg (by decide)]
    simp

/-- Witness for C5: `loopPaneFirst` (pass counter 0, playhead at the region
end 6) restarts the pass — clears its mixed status table — and
`loopPaneSecond` (pass counter 1) stops, leaving its statuses intact and
exposing the report. -/
theorem loop_region_two_pass_test_witness :
    ((loopBoundaryStep loopPaneFirst 4).loops_done = 1 ∧
     (loopBoundaryStep loopPaneFirst 4).playhead =
       min loopPaneFirst.loop_a loopPaneFirst.loop_b ∧
     (loopBoundaryStep loopPaneFirst 4).elapsed_secs = 0 ∧
     (loopBoundaryStep loopPaneFirst 4).statuses =
       loopPaneFirst.statuses.map (fun _ => none) ∧
     (loopBoundaryStep loopPaneFirst 4).playing = loopPaneFirst.playing ∧
     (loopBoundaryStep loopPaneFirst 4).review_active =
       loopPaneFirst.review_active ∧
     (loopBoundaryStep loopPaneFirst 4).analytics = loopPaneFirst.analytics ∧
     (loopBoundaryStep loopPaneFirst 4).hits = loopPaneFirst.hits) ∧
    ((loopBoundaryStep loopPaneSecond 4).playing = false ∧
     (loopBoundaryStep loopPaneSecond 4).review_active = true ∧
     (loopBoundaryStep loopPaneSecond 4).analytics =
       some ⟨score_with_spb demoLesson loopPaneSecond.hits
         (60 / loopPaneSecond.bpm)⟩ ∧
     (loopBoundaryStep loopPaneSecond 4).statuses = loopPaneSecond.statuses ∧
     (loopBoundaryStep loopPaneSecond 4).loops_done = 2) :=
  ⟨loop_region_two_pass_test.1 loopPaneFirst
      ⟨demoLesson, PracticeMode.Learn, 0, false⟩ 4 rfl rfl rfl rfl rfl
      (by norm_num [loopPaneFirst, basePane, max_def]),
   loop_region_two_pass_test.2 loopPaneSecond
      ⟨demoLesson, PracticeMode.Learn, 0, false⟩ 4 rfl rfl rfl rfl rfl
      (by norm_num [loopPaneSecond, loopPaneFirst, basePane, max_def])⟩

/-! ## Claim C6 -/

/-- C6 as stated is false: the Play handler rewinds the playhead (and
zeroes the elapsed time) only inside `if self.loop_use_region { … }`; with
no loop region active the playhead is left wherever it was.
`midChartPane` is paused at beat 3 with no region: pressing Play leaves
the playhead at 3, not 0 as the claim requires. -/
theorem transport_start_keeps_playhead_counterexample :
    midChartPane.loop_use_region = false ∧
    midChartPane.playhead = 3 ∧
    (startTransport midChartPane 4 2).playhead = 3 ∧
    (startTransport midChartPane 4 2).elapsed_secs = 3/2 ∧
    (3 : ℚ) ≠ 0 := by
  refine ⟨rfl, rfl, ?_, ?_, by norm_num⟩
  · norm_num [startTransport, midChartPane, basePane]
  · norm_num [startTransport, midChartPane, basePane]

/-- C6 amended: starting transport always enters pre-roll with
`remainingSeconds = preRollBeats` (counted down by the tick's wall-clock
delta in seconds, one unit per configured beat) and sets the pass counter
to 0; the playhead is rewound to the region start and the elapsed time to
0 only when a loop region is active — otherwise both keep their current
values. -/
theorem transport_start_behavior (p : TutorPane) (prb dlc : Nat)
    (q : TutorPane) (dt : ℚ) :
    ((startTransport p prb dlc).playing = true ∧
     (startTransport p prb dlc).pre_roll_active = true ∧
     (startTransport p prb dlc).pre_roll_remaining = (prb : ℚ) ∧
     (startTransport p prb dlc).loops_done = 0 ∧
     (startTransport p prb dlc).review_active = false) ∧
    (p.loop_use_region = true →
      (startTransport p prb dlc).playhead = min p.loop_a p.loop_b ∧
      (startTransport p prb dlc).elapsed_secs = 0) ∧
    (p.loop_use_region = false →
      (startTransport p prb dlc).playhead = p.playhead ∧
      (startTransport p prb dlc).elapsed_secs = p.elapsed_secs) ∧
    (preRollTick q dt).pre_roll_remaining = q.pre_roll_remaining - dt := by
  refine ⟨?_, ?_, ?_, ?_⟩
  · by_cases hreg : p.loop_use_region <;>
      simp [startTransport, hreg]
  · intro hreg
    simp [startTransport, hreg]
  · intro hreg
    simp [startTransport, hreg]
  · by_cases hz : q.pre_roll_remaining - dt ≤ 0 <;>
      simp [preRollTick, hz]

/-- Witness for C6 (amended): with a region [2, 6] the playhead rewinds to
2; `midChartPane` (no region) keeps playhead 3; a pre-roll tick of 0.5 s
decrements the countdown by 0.5. -/
theorem transport_start_behavior_witness :
    (startTransport { basePane with
      loop_use_region := true, loop_a := 2, loop_b := 6 } 4 2).playhead =
        min (2 : ℚ) 6 ∧
    (startTransport midChartPane 4 2).playhead = midChartPane.playhead ∧
    (preRollTick basePane (1/2)).pre_roll_remaining =
      basePane.pre_roll_remaining - 1/2 := by
  refine ⟨?_, ?_, ?_⟩
  · have h := (transport_start_behavior
      { basePane with loop_use_region := true, loop_a := 2, loop_b := 6 }
      4 2 basePane (1/2)).2.1 rfl
    simpa using h.1
  · exact ((transport_start_behavior midChartPane 4 2 basePane (1/2)).2.2.1
      rfl).1
  · exact (transport_start_behavior midChartPane 4 2 basePane (1/2)).2.2.2
